import Mathlib

/-!
Shallow embedding of the spatial analysis module of the NH_WATER
repository (spatial-analysis.js together with the configuration
constants of config.js).

The geometry primitives (point-in-polygon containment, nearest point
on a polyline, polygon area) live in an external geometry library and
are therefore modelled as oracle parameters.  Each oracle returns an
Option value: `none` models the primitive throwing an exception, which
the source catches with try/catch around the single primitive call.
JavaScript numbers are modelled as rationals; observation counts are
naturals.
-/

namespace NHWater

/-- A watershed feature: abstract geometry plus the two metric
properties mutated by aggregateByWatershed. -/
structure Watershed (G : Type) where
  geom : G
  obsCount : ℕ
  obsDensity : ℚ
deriving DecidableEq

/-- A trail feature: abstract geometry plus the two metric properties
mutated by scoreTrails. -/
structure Trail (G : Type) where
  geom : G
  obsNearby : ℕ
  scoreNorm : ℚ
deriving DecidableEq

variable {P G : Type}

/-- Model of the number returned by toFixed(n) and converted back with
unary plus: the argument scaled by 10^n, rounded half up, and scaled
back. -/
def roundTo (n : ℕ) (q : ℚ) : ℚ :=
  (((q * 10 ^ n + 1 / 2).floor : ℤ) : ℚ) / 10 ^ n

/-- CONFIG.analysis.trailBufferMeters from config.js. -/
def trailBufferMeters : ℚ := 100

/-- CONFIG.analysis.densityBreaks from config.js. -/
def densityBreaks : List ℚ := [0, 1, 5, 15, 40, 100]

/-- The guarded containment test of aggregateByWatershed: the turf
booleanPointInPolygon call inside try/catch.  A thrown exception
(oracle result none) behaves like a failed test: the loop moves on to
the next watershed. -/
def containsPt (pip : P → G → Option Bool) (p : P) (g : G) : Bool :=
  pip p g == some true

/-- The inner for-loop of aggregateByWatershed for one observation:
walk the watershed list in order, increment obsCount of the first
watershed whose containment test succeeds, then break. -/
def assignPoint (pip : P → G → Option Bool) (p : P) :
    List (Watershed G) → List (Watershed G)
  | [] => []
  | ws :: rest =>
    if containsPt pip p ws.geom then
      { ws with obsCount := ws.obsCount + 1 } :: rest
    else
      ws :: assignPoint pip p rest

/-- The reset step of aggregateByWatershed. -/
def resetWatershed (ws : Watershed G) : Watershed G :=
  { ws with obsCount := 0, obsDensity := 0 }

/-- The density step of aggregateByWatershed: turf.area inside
try/catch, conversion to square kilometers, guarded division rounded
to two decimals, 0 on a non-positive area or a thrown exception. -/
def setDensity (area : G → Option ℚ) (ws : Watershed G) : Watershed G :=
  match area ws.geom with
  | some a =>
    let areaKm2 := a / 1000000
    if 0 < areaKm2 then
      { ws with obsDensity := roundTo 2 ((ws.obsCount : ℚ) / areaKm2) }
    else
      { ws with obsDensity := 0 }
  | none => { ws with obsDensity := 0 }

/-- aggregateByWatershed from spatial-analysis.js: reset both metrics,
assign every observation to the first containing watershed, then
compute densities. -/
def aggregateByWatershed (pip : P → G → Option Bool) (area : G → Option ℚ)
    (watersheds : List (Watershed G)) (observations : List P) :
    List (Watershed G) :=
  ((observations.foldl (fun wss p => assignPoint pip p wss)
      (watersheds.map resetWatershed)).map (setDensity area))

/-- The buffer radius in kilometers used by scoreTrails: the
JavaScript expression (bufferMeters || CONFIG.analysis.trailBufferMeters)
divided by 1000.  The argument none models a missing (undefined)
argument; the value 0 is falsy and also selects the default. -/
def effBufferKm (bufferMeters : Option ℚ) : ℚ :=
  (match bufferMeters with
   | some b => if b = 0 then trailBufferMeters else b
   | none => trailBufferMeters) / 1000

/-- The reset step of scoreTrails. -/
def resetTrail (t : Trail G) : Trail G :=
  { t with obsNearby := 0, scoreNorm := 0 }

/-- One guarded trail update of scoreTrails: turf.nearestPointOnLine
inside try/catch; on success the trail counter is incremented when the
distance is within the buffer, a thrown exception leaves the trail
unchanged. -/
def stepTrail (nearest : P → G → Option ℚ) (bufferKm : ℚ) (p : P)
    (t : Trail G) : Trail G :=
  match nearest p t.geom with
  | some d => if d ≤ bufferKm then { t with obsNearby := t.obsNearby + 1 } else t
  | none => t

/-- The normalizer of scoreTrails: Math.max of 1 and every obsNearby. -/
def maxObsOf (ts : List (Trail G)) : ℕ :=
  max 1 (ts.foldr (fun t m => max t.obsNearby m) 0)

/-- scoreTrails from spatial-analysis.js: reset both metrics, count for
every observation and every trail whether the nearest-point distance is
within the buffer, then normalize against the maximal count floored at
one, rounded to three decimals. -/
def scoreTrails (nearest : P → G → Option ℚ) (trails : List (Trail G))
    (observations : List P) (bufferMeters : Option ℚ) : List (Trail G) :=
  let bufferKm := effBufferKm bufferMeters
  let counted := observations.foldl
    (fun ts p => ts.map (stepTrail nearest bufferKm p))
    (trails.map resetTrail)
  let maxObs := maxObsOf counted
  counted.map (fun t =>
    { t with scoreNorm := roundTo 3 ((t.obsNearby : ℚ) / (maxObs : ℚ)) })

/-- The descending index scan of classifyDensity: argument i + 1 means
the loop variable currently is i; after index 0 fails the loop ends and
0 is returned. -/
def classifyFrom (breaks : List ℚ) (count : ℚ) : ℕ → ℕ
  | 0 => 0
  | i + 1 => if breaks.getD i 0 ≤ count then i else classifyFrom breaks count i

/-- classifyDensity generalized over the breakpoint list it reads. -/
def classifyWith (breaks : List ℚ) (count : ℚ) : ℕ :=
  classifyFrom breaks count breaks.length

/-- classifyDensity from spatial-analysis.js, reading
CONFIG.analysis.densityBreaks. -/
def classifyDensity (count : ℚ) : ℕ :=
  classifyWith densityBreaks count

/-- rankWatersheds from spatial-analysis.js: keep watersheds with a
positive count and sort them descending by count with the stable
Array.prototype.sort, modelled by the stable mergeSort. -/
def rankWatersheds (watersheds : List (Watershed G)) : List (Watershed G) :=
  (watersheds.filter (fun f => decide (0 < f.obsCount))).mergeSort
    (fun a b => decide (b.obsCount ≤ a.obsCount))

/-- rankTrails from spatial-analysis.js, keyed by obsNearby. -/
def rankTrails (trails : List (Trail G)) : List (Trail G) :=
  (trails.filter (fun f => decide (0 < f.obsNearby))).mergeSort
    (fun a b => decide (b.obsNearby ≤ a.obsNearby))

/-- Index of the first geometry in the list whose containment test
succeeds, specification companion of assignPoint. -/
def firstMatchIdx (pip : P → G → Option Bool) (p : P) : List G → Option ℕ
  | [] => none
  | g :: rest =>
    if containsPt pip p g then some 0
    else (firstMatchIdx pip p rest).map (· + 1)

/-- Whether one guarded distance test counts an observation for a
geometry, specification companion of stepTrail. -/
def isNear (nearest : P → G → Option ℚ) (bufferKm : ℚ) (p : P) (g : G) : Bool :=
  match nearest p g with
  | some d => decide (d ≤ bufferKm)
  | none => false

/-! ### Facts about rounding -/

theorem ratFloor_eq_intFloor (q : ℚ) : q.floor = ⌊q⌋ := by
  rw [Rat.floor_def', Rat.floor_def]

theorem roundTo_eq_intFloor (n : ℕ) (q : ℚ) :
    roundTo n q = ((⌊q * 10 ^ n + 1 / 2⌋ : ℤ) : ℚ) / 10 ^ n := by
  unfold roundTo
  rw [ratFloor_eq_intFloor]

theorem intFloor_add_half (z : ℤ) : ⌊(z : ℚ) + 1 / 2⌋ = z := by
  rw [Int.floor_int_add]
  norm_num

theorem roundTo_nonneg (n : ℕ) (q : ℚ) (h : 0 ≤ q) : 0 ≤ roundTo n q := by
  rw [roundTo_eq_intFloor]
  apply div_nonneg
  · have : (0 : ℤ) ≤ ⌊q * 10 ^ n + 1 / 2⌋ := Int.floor_nonneg.mpr (by positivity)
    exact_mod_cast this
  · positivity

theorem roundTo_le_one (n : ℕ) (q : ℚ) (h : q ≤ 1) : roundTo n q ≤ 1 := by
  rw [roundTo_eq_intFloor]
  rw [div_le_one (by positivity : (0 : ℚ) < 10 ^ n)]
  have h1 : q * 10 ^ n + 1 / 2 ≤ ((10 ^ n : ℤ) : ℚ) + 1 / 2 := by
    push_cast
    nlinarith [pow_pos (by norm_num : (0:ℚ) < 10) n]
  have h2 : ⌊q * 10 ^ n + 1 / 2⌋ ≤ (10 ^ n : ℤ) := by
    calc ⌊q * 10 ^ n + 1 / 2⌋ ≤ ⌊((10 ^ n : ℤ) : ℚ) + 1 / 2⌋ := Int.floor_le_floor h1
    _ = (10 ^ n : ℤ) := intFloor_add_half _
  calc ((⌊q * 10 ^ n + 1 / 2⌋ : ℤ) : ℚ) ≤ ((10 ^ n : ℤ) : ℚ) := by exact_mod_cast h2
  _ = 10 ^ n := by push_cast; ring

theorem roundTo_one (n : ℕ) : roundTo n 1 = 1 := by
  rw [roundTo_eq_intFloor, one_mul]
  have : ((10 : ℚ) ^ n) = ((10 ^ n : ℤ) : ℚ) := by push_cast; ring
  rw [this, intFloor_add_half]
  rw [div_self]
  intro hz
  have : ((10 ^ n : ℤ) : ℚ) ≠ 0 := by positivity
  exact this hz

theorem roundTo_zero (n : ℕ) : roundTo n 0 = 0 := by
  rw [roundTo_eq_intFloor, zero_mul, zero_add]
  have : ⌊(1 / 2 : ℚ)⌋ = 0 := by
    have := intFloor_add_half (0 : ℤ)
    simpa using this
  rw [this]
  simp

/-! ### The first-match characterization of aggregateByWatershed -/

theorem assignPoint_map_geom (pip : P → G → Option Bool) (p : P)
    (wss : List (Watershed G)) :
    (assignPoint pip p wss).map (·.geom) = wss.map (·.geom) := by
  induction wss with
  | nil => rfl
  | cons ws rest ih =>
    by_cases h : containsPt pip p ws.geom
    · simp [assignPoint, h]
    · simp [assignPoint, h, ih]

theorem assignPoint_count (pip : P → G → Option Bool) (p : P)
    (wss : List (Watershed G)) (j : ℕ) :
    ((assignPoint pip p wss).map (·.obsCount)).getD j 0 =
      (wss.map (·.obsCount)).getD j 0 +
        (if firstMatchIdx pip p (wss.map (·.geom)) = some j then 1 else 0) := by
  induction wss generalizing j with
  | nil => simp [assignPoint, firstMatchIdx]
  | cons ws rest ih =>
    by_cases h : containsPt pip p ws.geom
    · cases j with
      | zero => simp [assignPoint, h, firstMatchIdx]
      | succ j => simp [assignPoint, h, firstMatchIdx]
    · cases j with
      | zero =>
        simp only [List.map_cons, assignPoint, h, if_neg, Bool.false_eq_true,
          not_false_iff, firstMatchIdx, List.getD_cons_zero]
        cases hfmi : firstMatchIdx pip p (rest.map (·.geom)) <;> simp [hfmi, h]
      | succ j =>
        simp only [List.map_cons, assignPoint, h, Bool.false_eq_true, if_false,
          firstMatchIdx, List.getD_cons_succ, ih]
        cases hfmi : firstMatchIdx pip p (rest.map (·.geom)) <;> simp [hfmi, h]

theorem foldlAssign_geom (pip : P → G → Option Bool) (pts : List P)
    (wss : List (Watershed G)) :
    ((pts.foldl (fun a p => assignPoint pip p a) wss).map (·.geom)) =
      wss.map (·.geom) := by
  induction pts generalizing wss with
  | nil => rfl
  | cons p pts ih => rw [List.foldl_cons, ih, assignPoint_map_geom]

theorem foldlAssign_count (pip : P → G → Option Bool) (pts : List P)
    (wss : List (Watershed G)) (j : ℕ) :
    ((pts.foldl (fun a p => assignPoint pip p a) wss).map (·.obsCount)).getD j 0 =
      (wss.map (·.obsCount)).getD j 0 +
        pts.countP (fun p => firstMatchIdx pip p (wss.map (·.geom)) == some j) := by
  induction pts generalizing wss with
  | nil => simp
  | cons p pts ih =>
    rw [List.foldl_cons, ih, assignPoint_map_geom, assignPoint_count,
      List.countP_cons]
    by_cases h : firstMatchIdx pip p (wss.map (·.geom)) = some j
    · simp [h]
      omega
    · simp [h]

theorem getD_map_const_zero (l : List (Watershed G)) (j : ℕ) :
    ((l.map (fun _ => (0 : ℕ))).getD j 0) = 0 := by
  induction l generalizing j with
  | nil => simp
  | cons x l ih => cases j <;> simp [ih]

theorem map_reset_count (wss : List (Watershed G)) :
    (wss.map resetWatershed).map (·.obsCount) = wss.map (fun _ => (0 : ℕ)) := by
  simp [List.map_map, Function.comp_def, resetWatershed]

theorem map_reset_geom (wss : List (Watershed G)) :
    (wss.map resetWatershed).map (·.geom) = wss.map (·.geom) := by
  simp [List.map_map, Function.comp_def, resetWatershed]

theorem setDensity_obsCount (area : G → Option ℚ) (ws : Watershed G) :
    (setDensity area ws).obsCount = ws.obsCount := by
  unfold setDensity
  cases area ws.geom
  · rfl
  · dsimp only
    split <;> rfl

theorem setDensity_geom (area : G → Option ℚ) (ws : Watershed G) :
    (setDensity area ws).geom = ws.geom := by
  unfold setDensity
  cases area ws.geom
  · rfl
  · dsimp only
    split <;> rfl

theorem map_setDensity_count (area : G → Option ℚ) (l : List (Watershed G)) :
    (l.map (setDensity area)).map (·.obsCount) = l.map (·.obsCount) := by
  simp [List.map_map, Function.comp_def, setDensity_obsCount]

theorem map_setDensity_geom (area : G → Option ℚ) (l : List (Watershed G)) :
    (l.map (setDensity area)).map (·.geom) = l.map (·.geom) := by
  simp [List.map_map, Function.comp_def, setDensity_geom]

/-- Claim C1: each observation is assigned to at most one watershed.  The
count of the watershed at position j equals the number of observations
whose first containing watershed, in the supplied order, sits at
position j; observations whose first match is an earlier watershed, and
observations contained in no watershed, leave the count unchanged. -/
theorem aggregate_first_match (pip : P → G → Option Bool) (area : G → Option ℚ)
    (watersheds : List (Watershed G)) (observations : List P) (j : ℕ) :
    ((aggregateByWatershed pip area watersheds observations).map
        (·.obsCount)).getD j 0 =
      observations.countP
        (fun p => firstMatchIdx pip p (watersheds.map (·.geom)) == some j) := by
  unfold aggregateByWatershed
  rw [map_setDensity_count, foldlAssign_count, map_reset_geom, map_reset_count,
    getD_map_const_zero, Nat.zero_add]

/-! ### The all-trails characterization of scoreTrails -/

theorem foldl_map_comm (pts : List P) (f : P → Trail G → Trail G)
    (l : List (Trail G)) :
    pts.foldl (fun ts p => ts.map (f p)) l =
      l.map (fun t => pts.foldl (fun t p => f p t) t) := by
  induction pts generalizing l with
  | nil => simp
  | cons p pts ih =>
    rw [List.foldl_cons, ih, List.map_map]
    simp [Function.comp_def]

/-- The body of scoreTrails with its let bindings expanded. -/
theorem scoreTrails_eq (nearest : P → G → Option ℚ) (trails : List (Trail G))
    (pts : List P) (bm : Option ℚ) :
    scoreTrails nearest trails pts bm =
      (pts.foldl (fun ts p => ts.map (stepTrail nearest (effBufferKm bm) p))
          (trails.map resetTrail)).map
        (fun t => { t with scoreNorm := roundTo 3 ((t.obsNearby : ℚ) /
          ((maxObsOf (pts.foldl
              (fun ts p => ts.map (stepTrail nearest (effBufferKm bm) p))
              (trails.map resetTrail)) : ℕ) : ℚ)) }) := rfl

theorem trail_fold_count (nearest : P → G → Option ℚ) (bk : ℚ) (pts : List P)
    (t : Trail G) :
    pts.foldl (fun t p => stepTrail nearest bk p t) t =
      ⟨t.geom, t.obsNearby + pts.countP (fun p => isNear nearest bk p t.geom),
        t.scoreNorm⟩ := by
  induction pts generalizing t with
  | nil => simp
  | cons p pts ih =>
    rw [List.foldl_cons, List.countP_cons, ih]
    unfold stepTrail isNear
    cases h : nearest p t.geom with
    | none => simp
    | some d =>
      by_cases hd : d ≤ bk
      · simp only [hd, if_pos, decide_eq_true_eq]
        congr 1
        omega
      · simp [hd]

/-- Claim C2: scoreTrails evaluates every trail for every observation:
after the call, each trail carries as obsNearby the number of
observations whose guarded nearest-point distance to that trail is
within the buffer, independently of every other trail, so one
observation may be counted by several trails at once. -/
theorem scoreTrails_counts_all (nearest : P → G → Option ℚ)
    (trails : List (Trail G)) (observations : List P) (bufferMeters : Option ℚ) :
    (scoreTrails nearest trails observations bufferMeters).map
        (fun t => (t.geom, t.obsNearby)) =
      trails.map (fun t =>
        (t.geom, observations.countP
          (fun p => isNear nearest (effBufferKm bufferMeters) p t.geom))) := by
  rw [scoreTrails_eq, foldl_map_comm]
  simp only [List.map_map, Function.comp_def, trail_fold_count, resetTrail]
  simp

/-! ### Normalization bounds of scoreTrails -/

theorem foldrMax_le (ts : List (Trail G)) (t : Trail G) (h : t ∈ ts) :
    t.obsNearby ≤ ts.foldr (fun t m => max t.obsNearby m) 0 := by
  induction ts with
  | nil => cases h
  | cons x ts ih =>
    rcases List.mem_cons.mp h with rfl | h'
    · exact le_max_left _ _
    · exact le_trans (ih h') (le_max_right _ _)

theorem foldrMax_attained (ts : List (Trail G)) :
    ts.foldr (fun t m => max t.obsNearby m) 0 = 0 ∨
      ∃ t ∈ ts, t.obsNearby = ts.foldr (fun t m => max t.obsNearby m) 0 := by
  induction ts with
  | nil => left; rfl
  | cons x ts ih =>
    rcases ih with h0 | ⟨u, hu, huu⟩
    · right
      refine ⟨x, List.mem_cons_self _ _, ?_⟩
      simp [List.foldr_cons, h0]
    · right
      by_cases hx : ts.foldr (fun t m => max t.obsNearby m) 0 ≤ x.obsNearby
      · exact ⟨x, List.mem_cons_self _ _, by simp [List.foldr_cons, Nat.max_eq_left hx]⟩
      · refine ⟨u, List.mem_cons_of_mem _ hu, ?_⟩
        simp only [List.foldr_cons]
        omega

theorem one_le_maxObsOf (ts : List (Trail G)) : 1 ≤ maxObsOf ts :=
  le_max_left _ _

/-- Claim C3: after scoreTrails every normalized score lies in the unit
interval; the normalizer is the maximal count floored at one, so the
division is always by a positive number, and as soon as one trail has a
positive count some trail scores exactly one. -/
theorem scoreTrails_norm_bounds (nearest : P → G → Option ℚ)
    (trails : List (Trail G)) (observations : List P) (bufferMeters : Option ℚ) :
    (∀ t ∈ scoreTrails nearest trails observations bufferMeters,
        0 ≤ t.scoreNorm ∧ t.scoreNorm ≤ 1) ∧
    ((∃ t ∈ scoreTrails nearest trails observations bufferMeters,
        0 < t.obsNearby) →
      ∃ t ∈ scoreTrails nearest trails observations bufferMeters,
        t.scoreNorm = 1) := by
  rw [scoreTrails_eq]
  set C := observations.foldl
    (fun ts p => ts.map (stepTrail nearest (effBufferKm bufferMeters) p))
    (trails.map resetTrail) with hC
  constructor
  · intro t ht
    obtain ⟨u, hu, rfl⟩ := List.mem_map.mp ht
    constructor
    · exact roundTo_nonneg _ _ (by positivity)
    · apply roundTo_le_one
      have h1 : u.obsNearby ≤ maxObsOf C :=
        le_trans (foldrMax_le _ _ hu) (le_max_right 1 _)
      have hm : (0 : ℚ) < (maxObsOf C : ℚ) := by
        have := one_le_maxObsOf C
        exact_mod_cast lt_of_lt_of_le Nat.zero_lt_one this
      rw [div_le_one hm]
      exact_mod_cast h1
  · rintro ⟨t, ht, hpos⟩
    obtain ⟨u, hu, rfl⟩ := List.mem_map.mp ht
    have hupos : 0 < u.obsNearby := hpos
    have hm' : 0 < C.foldr (fun t m => max t.obsNearby m) 0 :=
      lt_of_lt_of_le hupos (foldrMax_le _ _ hu)
    rcases foldrMax_attained C with h0 | ⟨w, hw, hww⟩
    · omega
    · have hmax : maxObsOf C = C.foldr (fun t m => max t.obsNearby m) 0 := by
        unfold maxObsOf
        omega
      refine ⟨_, List.mem_map_of_mem _ hw, ?_⟩
      show roundTo 3 ((w.obsNearby : ℚ) / (maxObsOf C : ℚ)) = 1
      rw [hww, hmax, div_self, roundTo_one]
      exact_mod_cast hm'.ne'

/-! ### Density values of aggregateByWatershed -/

theorem setDensity_some_pos (area : G → Option ℚ) (u : Watershed G) (a : ℚ)
    (harea : area u.geom = some a) (hpos : 0 < a / 1000000) :
    setDensity area u =
      { u with obsDensity := roundTo 2 ((u.obsCount : ℚ) / (a / 1000000)) } := by
  unfold setDensity
  rw [harea]
  simp [hpos]

theorem setDensity_some_nonpos (area : G → Option ℚ) (u : Watershed G) (a : ℚ)
    (harea : area u.geom = some a) (hpos : ¬ 0 < a / 1000000) :
    setDensity area u = { u with obsDensity := 0 } := by
  unfold setDensity
  rw [harea]
  simp [hpos]

theorem setDensity_none (area : G → Option ℚ) (u : Watershed G)
    (harea : area u.geom = none) :
    setDensity area u = { u with obsDensity := 0 } := by
  unfold setDensity
  rw [harea]

/-- Claim C4 (amended): after aggregateByWatershed every density is the
count divided by the area in square kilometers, rounded to two decimal
places; the density is 0 when the area primitive fails or reports a
non-positive area, and it is never negative. -/
theorem aggregate_density_values (pip : P → G → Option Bool)
    (area : G → Option ℚ) (watersheds : List (Watershed G))
    (observations : List P) :
    ∀ ws ∈ aggregateByWatershed pip area watersheds observations,
      0 ≤ ws.obsDensity ∧
      (area ws.geom = none → ws.obsDensity = 0) ∧
      ∀ a, area ws.geom = some a →
        (0 < a → ws.obsDensity = roundTo 2 ((ws.obsCount : ℚ) / (a / 1000000))) ∧
        (a ≤ 0 → ws.obsDensity = 0) := by
  intro ws hws
  unfold aggregateByWatershed at hws
  obtain ⟨u, hu, rfl⟩ := List.mem_map.mp hws
  rw [setDensity_geom, setDensity_obsCount]
  cases harea : area u.geom with
  | none =>
    rw [setDensity_none area u harea]
    refine ⟨le_refl 0, fun _ => rfl, ?_⟩
    intro a ha
    exact Option.noConfusion ha
  | some a =>
    by_cases hpos : 0 < a / 1000000
    · rw [setDensity_some_pos area u a harea hpos]
      refine ⟨?_, fun h => Option.noConfusion h, ?_⟩
      · exact roundTo_nonneg _ _ (by positivity)
      · intro a' ha'
        obtain rfl : a = a' := by injection ha'
        constructor
        · intro _
          rfl
        · intro hle
          exact absurd (by linarith : (0 : ℚ) < a) (not_lt.mpr hle)
    · rw [setDensity_some_nonpos area u a harea hpos]
      refine ⟨le_refl 0, fun h => Option.noConfusion h, ?_⟩
      intro a' ha'
      obtain rfl : a = a' := by injection ha'
      constructor
      · intro hlt
        exact absurd (by positivity : 0 < a / 1000000) hpos
      · intro _
        rfl

/-! ### Behaviour of scoreTrails on non-positive buffer values -/

theorem maxObsOf_zeros (ts : List (Trail G)) (h : ∀ t ∈ ts, t.obsNearby = 0) :
    maxObsOf ts = 1 := by
  unfold maxObsOf
  have hz : ts.foldr (fun t m => max t.obsNearby m) 0 = 0 := by
    induction ts with
    | nil => rfl
    | cons x ts ih =>
      simp only [List.foldr_cons, h x (List.mem_cons_self _ _),
        ih (fun t ht => h t (List.mem_cons_of_mem _ ht))]
      rfl
  rw [hz]
  omega

theorem effBufferKm_neg (b : ℚ) (hb : b < 0) : effBufferKm (some b) = b / 1000 := by
  show (if b = 0 then trailBufferMeters else b) / 1000 = b / 1000
  rw [if_neg hb.ne]

theorem isNear_false_of_neg (nearest : P → G → Option ℚ) (bk : ℚ) (hbk : bk < 0)
    (hd : ∀ p g d, nearest p g = some d → 0 ≤ d) (p : P) (g : G) :
    isNear nearest bk p g = false := by
  unfold isNear
  cases h : nearest p g with
  | none => rfl
  | some d =>
    have := hd p g d h
    simp only [decide_eq_false_iff_not]
    intro hle
    linarith

theorem scoreTrails_neg_buffer (nearest : P → G → Option ℚ)
    (trails : List (Trail G)) (pts : List P) (b : ℚ) (hb : b < 0)
    (hd : ∀ p g d, nearest p g = some d → 0 ≤ d) :
    scoreTrails nearest trails pts (some b) =
      trails.map (fun t => ⟨t.geom, 0, 0⟩) := by
  have hbk : effBufferKm (some b) < 0 := by
    rw [effBufferKm_neg b hb]
    linarith
  have hcount : ∀ g : G,
      pts.countP (fun p => isNear nearest (effBufferKm (some b)) p g) = 0 := by
    intro g
    apply List.countP_eq_zero.mpr
    intro p _
    simp [isNear_false_of_neg nearest _ hbk hd p g]
  rw [scoreTrails_eq, foldl_map_comm]
  simp only [List.map_map, Function.comp_def, trail_fold_count, resetTrail]
  have hmax : maxObsOf (trails.map (fun t : Trail G =>
      (⟨t.geom, 0 + pts.countP
          (fun p => isNear nearest (effBufferKm (some b)) p t.geom), 0⟩ :
        Trail G))) = 1 := by
    apply maxObsOf_zeros
    intro t ht
    obtain ⟨u, _, rfl⟩ := List.mem_map.mp ht
    simp [hcount]
  simp [hmax, hcount, roundTo_zero]

/-- Claim C5 (amended): scoreTrails does not reject a non-positive
buffer at the call boundary.  A zero buffer is falsy and silently
selects the configured 100 meter default, and a negative buffer is used
as given: the call runs to completion and overwrites every metric,
leaving obsNearby = 0 and scoreNorm = 0 on every trail. -/
theorem scoreTrails_nonpositive_not_rejected (nearest : P → G → Option ℚ)
    (trails : List (Trail G)) (pts : List P) (b : ℚ) (hb : b < 0)
    (hd : ∀ p g d, nearest p g = some d → 0 ≤ d) :
    scoreTrails nearest trails pts (some 0) =
      scoreTrails nearest trails pts (some trailBufferMeters) ∧
    scoreTrails nearest trails pts (some b) =
      trails.map (fun t => ⟨t.geom, 0, 0⟩) := by
  constructor
  · have : effBufferKm (some 0) = effBufferKm (some trailBufferMeters) := by
      unfold effBufferKm trailBufferMeters
      norm_num
    rw [scoreTrails_eq, scoreTrails_eq, this]
  · exact scoreTrails_neg_buffer nearest trails pts b hb hd

/-- Counterexample to claim C5 as stated: a call with the non-positive
buffer value -5 is not rejected; it completes and mutates the trail
metrics, resetting a stale obsNearby of 7 to 0. -/
theorem scoreTrails_neg_not_rejected_cx :
    scoreTrails (fun (_ : ℕ) (_ : ℕ) => some (0 : ℚ))
      [⟨0, 7, 1/2⟩] [0] (some (-5)) = [⟨0, 0, 0⟩] := by
  simp only [scoreTrails, stepTrail, resetTrail, effBufferKm, maxObsOf,
    trailBufferMeters, List.map, List.foldl, List.foldr, roundTo]
  norm_num [Rat.floor_def']

/-- Witness for the amended claim C5 at a concrete input. -/
theorem scoreTrails_nonpositive_not_rejected_witness :
    scoreTrails (fun (_ : ℕ) (_ : ℕ) => some (0 : ℚ))
      [⟨0, 3, 1/2⟩] [0] (some (-1)) = [⟨0, 0, 0⟩] := by
  have h := (scoreTrails_nonpositive_not_rejected
    (fun (_ : ℕ) (_ : ℕ) => some (0 : ℚ)) [⟨0, 3, 1/2⟩] [0] (-1)
    (by norm_num)
    (fun p g d hpg => by
      injection hpg with h2
      rw [← h2])).2
  simpa using h

/-- Counterexample to claim C4 as stated: with one observation inside a
single watershed of area 3 square kilometers the stored density is the
rounded value 0.33, which differs from the exact quotient 1/3. -/
theorem aggregate_density_rounded_cx :
    aggregateByWatershed (fun (_ : ℕ) (_ : ℕ) => some true)
        (fun _ => some (3000000 : ℚ)) [⟨0, 0, 0⟩] [0] = [⟨0, 1, 33/100⟩] ∧
    (33/100 : ℚ) ≠ ((1 : ℕ) : ℚ) / (3000000 / 1000000) := by
  constructor
  · simp only [aggregateByWatershed, assignPoint, resetWatershed, setDensity,
      containsPt, List.map, List.foldl, roundTo]
    norm_num [Rat.floor_def']
  · norm_num

/-- Witness for the amended claim C4 at a concrete input. -/
theorem aggregate_density_values_witness :
    (0 : ℚ) ≤ 33/100 ∧
    (33/100 : ℚ) = roundTo 2 ((1 : ℚ) / (3000000 / 1000000)) := by
  have hlist : aggregateByWatershed (fun (_ : ℕ) (_ : ℕ) => some true)
      (fun _ => some (3000000 : ℚ)) [⟨0, 0, 0⟩] [0] = [⟨0, 1, 33/100⟩] := by
    simp only [aggregateByWatershed, assignPoint, resetWatershed, setDensity,
      containsPt, List.map, List.foldl, roundTo]
    norm_num [Rat.floor_def']
  have h := aggregate_density_values (fun (_ : ℕ) (_ : ℕ) => some true)
    (fun _ => some (3000000 : ℚ)) [⟨0, 0, 0⟩] [0] ⟨0, 1, 33/100⟩
    (by rw [hlist]; exact List.mem_singleton_self _)
  refine ⟨h.1, ?_⟩
  have h2 := (h.2.2 3000000 rfl).1 (by norm_num)
  simpa using h2

/-! ### The classifier -/

theorem classifyFrom_found (breaks : List ℚ) (c : ℚ) :
    ∀ n i, i < n → breaks.getD i 0 ≤ c →
      breaks.getD (classifyFrom breaks c n) 0 ≤ c ∧
      i ≤ classifyFrom breaks c n ∧ classifyFrom breaks c n < n := by
  intro n
  induction n with
  | zero => omega
  | succ m ih =>
    intro i hi hle
    by_cases h : breaks.getD m 0 ≤ c
    · unfold classifyFrom
      rw [if_pos h]
      exact ⟨h, by omega, by omega⟩
    · unfold classifyFrom
      rw [if_neg h]
      have him : i ≠ m := fun heq => h (heq ▸ hle)
      obtain ⟨h1, h2, h3⟩ := ih i (by omega) hle
      exact ⟨h1, h2, by omega⟩

theorem classifyFrom_notFound (breaks : List ℚ) (c : ℚ) :
    ∀ n, (∀ i, i < n → ¬ breaks.getD i 0 ≤ c) → classifyFrom breaks c n = 0 := by
  intro n
  induction n with
  | zero => intro _; rfl
  | succ m ih =>
    intro h
    unfold classifyFrom
    rw [if_neg (h m (by omega))]
    exact ih (fun i hi => h i (by omega))

theorem densityBreaks_ascending : densityBreaks.Chain' (· < ·) := by
  unfold densityBreaks
  norm_num [List.chain'_cons, List.chain'_singleton]

/-- Claim C6: under a strictly ascending breakpoint list and a
non-negative count, the classifier returns the greatest index whose
breakpoint the count reaches, and 0 when the count is below the first
breakpoint; with the configured breakpoints a count of 42 lands in tier
4. -/
theorem classifyWith_highest (breaks : List ℚ) (count : ℚ)
    (hasc : breaks.Chain' (· < ·)) (_hc : 0 ≤ count) :
    (∀ i, i < breaks.length → breaks.getD i 0 ≤ count →
      breaks.getD (classifyWith breaks count) 0 ≤ count ∧
      i ≤ classifyWith breaks count ∧
      classifyWith breaks count < breaks.length) ∧
    (breaks ≠ [] → count < breaks.getD 0 0 → classifyWith breaks count = 0) ∧
    classifyDensity 42 = 4 := by
  refine ⟨?_, ?_, ?_⟩
  · intro i hi hle
    exact classifyFrom_found breaks count breaks.length i hi hle
  · intro hne hlt
    apply classifyFrom_notFound
    intro i hi
    rw [not_le]
    rcases Nat.eq_zero_or_pos i with rfl | hipos
    · exact hlt
    · have hpw : breaks.Pairwise (· < ·) :=
        (List.chain'_iff_pairwise.mp hasc)
      have h0i : breaks.getD 0 0 < breaks.getD i 0 := by
        rw [List.getD_eq_getElem breaks 0 (by omega),
          List.getD_eq_getElem breaks 0 hi]
        exact List.pairwise_iff_getElem.mp hpw 0 i (by omega) hi hipos
      exact hlt.trans h0i
  · simp only [classifyDensity, classifyWith, classifyFrom, densityBreaks]
    norm_num

/-- Witness for claim C6 at the documented input: tier 4 is returned
for a count of 42 and is indeed the greatest index reached. -/
theorem classifyWith_highest_witness :
    densityBreaks.getD (classifyWith densityBreaks 42) 0 ≤ 42 ∧
    4 ≤ classifyWith densityBreaks 42 ∧
    classifyWith densityBreaks 42 < densityBreaks.length := by
  have h := (classifyWith_highest densityBreaks 42 densityBreaks_ascending
    (by norm_num)).1 4 (by norm_num [densityBreaks]) (by norm_num [densityBreaks])
  exact h

/-! ### Ranking: descending stable sort of the positive-count features -/

theorem keyLe_trans {α : Type} (key : α → ℕ) : ∀ a b c : α,
    decide (key b ≤ key a) → decide (key c ≤ key b) → decide (key c ≤ key a) := by
  intro a b c hab hbc
  simp only [decide_eq_true_eq] at *
  omega

theorem keyLe_total {α : Type} (key : α → ℕ) : ∀ a b : α,
    decide (key b ≤ key a) || decide (key a ≤ key b) := by
  intro a b
  simp only [Bool.or_eq_true, decide_eq_true_eq]
  omega

theorem mergeSort_key_pairwise {α : Type} (key : α → ℕ) (l : List α) :
    (l.mergeSort (fun a b => decide (key b ≤ key a))).Pairwise
      (fun a b => key b ≤ key a) := by
  have h := List.sorted_mergeSort (keyLe_trans key) (keyLe_total key) l
  exact h.imp (fun hab => of_decide_eq_true hab)

theorem mergeSort_key_filter {α : Type} (key : α → ℕ) (l : List α) (c : ℕ) :
    (l.mergeSort (fun a b => decide (key b ≤ key a))).filter
        (fun x => decide (key x = c)) =
      l.filter (fun x => decide (key x = c)) := by
  have hsubl : List.Sublist (l.filter (fun x => decide (key x = c))) l :=
    List.filter_sublist l
  have hpw : (l.filter (fun x => decide (key x = c))).Pairwise
      (fun a b => decide (key b ≤ key a)) := by
    apply List.pairwise_of_forall_mem_list
    intro a ha b hb
    have hka : key a = c := by simpa using (List.mem_filter.mp ha).2
    have hkb : key b = c := by simpa using (List.mem_filter.mp hb).2
    simp [hka, hkb]
  have h1 : List.Sublist (l.filter (fun x => decide (key x = c)))
      (l.mergeSort (fun a b => decide (key b ≤ key a))) :=
    List.sublist_mergeSort (keyLe_trans key) (keyLe_total key) hpw hsubl
  have h2 := h1.filter (fun x => decide (key x = c))
  rw [List.filter_eq_self.mpr (fun a ha => (List.mem_filter.mp ha).2)] at h2
  have hperm := (List.mergeSort_perm l
    (fun a b => decide (key b ≤ key a))).filter (fun x => decide (key x = c))
  exact (h2.eq_of_length hperm.length_eq.symm).symm

/-- Claim C7: rankWatersheds keeps exactly the watersheds with a
positive count, sorted non-increasing by count, and ties keep the input
order: for every count value the subsequence of that count in the output
equals the corresponding subsequence of the filtered input.  rankTrails
satisfies the same property keyed by obsNearby. -/
theorem rank_descending_stable (wss : List (Watershed G)) (ts : List (Trail G)) :
    ((rankWatersheds wss).Perm
        (wss.filter (fun f => decide (0 < f.obsCount))) ∧
      (rankWatersheds wss).Pairwise (fun a b => b.obsCount ≤ a.obsCount) ∧
      ∀ c : ℕ, (rankWatersheds wss).filter (fun f => decide (f.obsCount = c)) =
        (wss.filter (fun f => decide (0 < f.obsCount))).filter
          (fun f => decide (f.obsCount = c))) ∧
    ((rankTrails ts).Perm
        (ts.filter (fun f => decide (0 < f.obsNearby))) ∧
      (rankTrails ts).Pairwise (fun a b => b.obsNearby ≤ a.obsNearby) ∧
      ∀ c : ℕ, (rankTrails ts).filter (fun f => decide (f.obsNearby = c)) =
        (ts.filter (fun f => decide (0 < f.obsNearby))).filter
          (fun f => decide (f.obsNearby = c))) := by
  refine ⟨⟨?_, ?_, ?_⟩, ⟨?_, ?_, ?_⟩⟩
  · exact List.mergeSort_perm _ _
  · exact mergeSort_key_pairwise (fun w : Watershed G => w.obsCount) _
  · intro c
    exact mergeSort_key_filter (fun w : Watershed G => w.obsCount) _ c
  · exact List.mergeSort_perm _ _
  · exact mergeSort_key_pairwise (fun t : Trail G => t.obsNearby) _
  · intro c
    exact mergeSort_key_filter (fun t : Trail G => t.obsNearby) _ c

/-! ### Idempotence: both operations depend only on the geometries -/

theorem aggregate_geom (pip : P → G → Option Bool) (area : G → Option ℚ)
    (wss : List (Watershed G)) (pts : List P) :
    (aggregateByWatershed pip area wss pts).map (·.geom) = wss.map (·.geom) := by
  unfold aggregateByWatershed
  rw [map_setDensity_geom, foldlAssign_geom, map_reset_geom]

theorem map_reset_of_geom_eq (wss₁ wss₂ : List (Watershed G))
    (h : wss₁.map (·.geom) = wss₂.map (·.geom)) :
    wss₁.map resetWatershed = wss₂.map resetWatershed := by
  have e : ∀ l : List (Watershed G),
      l.map resetWatershed =
        (l.map (·.geom)).map (fun g => (⟨g, 0, 0⟩ : Watershed G)) := by
    intro l
    rw [List.map_map]
    rfl
  rw [e wss₁, e wss₂, h]

theorem aggregate_congr_geom (pip : P → G → Option Bool) (area : G → Option ℚ)
    (wss₁ wss₂ : List (Watershed G)) (pts : List P)
    (h : wss₁.map (·.geom) = wss₂.map (·.geom)) :
    aggregateByWatershed pip area wss₁ pts =
      aggregateByWatershed pip area wss₂ pts := by
  unfold aggregateByWatershed
  rw [map_reset_of_geom_eq wss₁ wss₂ h]

theorem foldlStep_geom (nearest : P → G → Option ℚ) (bk : ℚ) (pts : List P)
    (l : List (Trail G)) :
    ((pts.foldl (fun ts p => ts.map (stepTrail nearest bk p)) l).map
      (·.geom)) = l.map (·.geom) := by
  rw [foldl_map_comm]
  simp only [List.map_map, Function.comp_def, trail_fold_count]

theorem map_resetTrail_geom (ts : List (Trail G)) :
    (ts.map resetTrail).map (·.geom) = ts.map (·.geom) := by
  simp [List.map_map, Function.comp_def, resetTrail]

theorem scoreTrails_geom (nearest : P → G → Option ℚ) (ts : List (Trail G))
    (pts : List P) (bm : Option ℚ) :
    (scoreTrails nearest ts pts bm).map (·.geom) = ts.map (·.geom) := by
  rw [scoreTrails_eq, List.map_map]
  have : ((fun t : Trail G => t.geom) ∘
      (fun t : Trail G => { t with scoreNorm := roundTo 3 ((t.obsNearby : ℚ) /
        ((maxObsOf (pts.foldl
            (fun ts p => ts.map (stepTrail nearest (effBufferKm bm) p))
            (ts.map resetTrail)) : ℕ) : ℚ)) })) = (fun t : Trail G => t.geom) := by
    funext t
    rfl
  rw [show ((·.geom) : Trail G → G) = (fun t : Trail G => t.geom) from rfl, this,
    foldlStep_geom, map_resetTrail_geom]

theorem map_resetTrail_of_geom_eq (ts₁ ts₂ : List (Trail G))
    (h : ts₁.map (·.geom) = ts₂.map (·.geom)) :
    ts₁.map resetTrail = ts₂.map resetTrail := by
  have e : ∀ l : List (Trail G),
      l.map resetTrail = (l.map (·.geom)).map (fun g => (⟨g, 0, 0⟩ : Trail G)) := by
    intro l
    rw [List.map_map]
    rfl
  rw [e ts₁, e ts₂, h]

theorem scoreTrails_congr_geom (nearest : P → G → Option ℚ)
    (ts₁ ts₂ : List (Trail G)) (pts : List P) (bm : Option ℚ)
    (h : ts₁.map (·.geom) = ts₂.map (·.geom)) :
    scoreTrails nearest ts₁ pts bm = scoreTrails nearest ts₂ pts bm := by
  rw [scoreTrails_eq, scoreTrails_eq, map_resetTrail_of_geom_eq ts₁ ts₂ h]

/-- Claim C8: both operations are idempotent; metrics are recomputed
wholesale from the geometries and the observations, so a second run on
the output of a first run with the same inputs reproduces it exactly. -/
theorem analysis_idempotent (pip : P → G → Option Bool) (area : G → Option ℚ)
    (nearest : P → G → Option ℚ) (wss : List (Watershed G))
    (ts : List (Trail G)) (pts : List P) (bm : Option ℚ) :
    aggregateByWatershed pip area (aggregateByWatershed pip area wss pts) pts =
      aggregateByWatershed pip area wss pts ∧
    scoreTrails nearest (scoreTrails nearest ts pts bm) pts bm =
      scoreTrails nearest ts pts bm := by
  constructor
  · exact aggregate_congr_geom pip area _ wss pts (aggregate_geom pip area wss pts)
  · exact scoreTrails_congr_geom nearest _ ts pts bm (scoreTrails_geom nearest ts pts bm)

/-! ### Error handling: a failing primitive call behaves as its safe default -/

theorem containsPt_default (pip : P → G → Option Bool) (p : P) (g : G) :
    containsPt (fun p g => some (pip p g == some true)) p g =
      containsPt pip p g := by
  unfold containsPt
  cases h : pip p g == some true <;> simp [h]

theorem assignPoint_congr (pip₁ pip₂ : P → G → Option Bool) (p : P)
    (h : ∀ g, containsPt pip₁ p g = containsPt pip₂ p g)
    (l : List (Watershed G)) :
    assignPoint pip₁ p l = assignPoint pip₂ p l := by
  induction l with
  | nil => rfl
  | cons ws rest ih =>
    unfold assignPoint
    rw [h ws.geom, ih]

theorem setDensity_default (area : G → Option ℚ) (ws : Watershed G) :
    setDensity (fun g => some ((area g).getD 0)) ws = setDensity area ws := by
  cases h : area ws.geom with
  | some a => simp [setDensity, h]
  | none =>
    simp only [setDensity, h, Option.getD_none]
    norm_num

theorem stepTrail_default (nearest : P → G → Option ℚ) (bk : ℚ) (p : P)
    (t : Trail G) :
    stepTrail (fun p g => some ((nearest p g).getD (bk + 1))) bk p t =
      stepTrail nearest bk p t := by
  unfold stepTrail
  cases h : nearest p t.geom with
  | some d => simp [h]
  | none =>
    simp only [h, Option.getD_none]
    rw [if_neg (by linarith : ¬ bk + 1 ≤ bk)]

/-- Claim C9: a malformed geometry never aborts a run.  Replacing every
failing primitive call by its safe default result (containment false,
area 0, distance beyond the buffer) leaves both operations unchanged:
only the single failing comparison is dropped and every other metric is
computed as if it were absent. -/
theorem malformed_geometry_skipped (pip : P → G → Option Bool)
    (area : G → Option ℚ) (nearest : P → G → Option ℚ)
    (wss : List (Watershed G)) (ts : List (Trail G)) (pts : List P)
    (bm : Option ℚ) :
    aggregateByWatershed pip area wss pts =
      aggregateByWatershed (fun p g => some (pip p g == some true))
        (fun g => some ((area g).getD 0)) wss pts ∧
    scoreTrails nearest ts pts bm =
      scoreTrails (fun p g => some ((nearest p g).getD (effBufferKm bm + 1)))
        ts pts bm := by
  constructor
  · unfold aggregateByWatershed
    have hassign : (fun (wss : List (Watershed G)) (p : P) =>
        assignPoint (fun p g => some (pip p g == some true)) p wss) =
        (fun wss p => assignPoint pip p wss) := by
      funext l p
      exact assignPoint_congr _ _ p (containsPt_default pip p) l
    have hdens : (setDensity (fun g => some ((area g).getD 0)) :
        Watershed G → Watershed G) = setDensity area :=
      funext (setDensity_default area)
    rw [hassign, hdens]
  · rw [scoreTrails_eq, scoreTrails_eq]
    have hstep : (fun (ts : List (Trail G)) (p : P) =>
        ts.map (stepTrail (fun p g => some ((nearest p g).getD
          (effBufferKm bm + 1))) (effBufferKm bm) p)) =
        (fun ts p => ts.map (stepTrail nearest (effBufferKm bm) p)) := by
      funext l p
      exact List.map_congr_left (fun t _ => stepTrail_default nearest _ p t)
    rw [hstep]

/-- Claim C10: the buffer argument is selected by a truthiness test: an
absent argument and an explicit 0 both fall back to the configured 100
meter default, so a zero-radius buffer cannot be requested, while a
negative buffer is used as given and zeroes every metric. -/
theorem buffer_truthiness (nearest : P → G → Option ℚ) (ts : List (Trail G))
    (pts : List P) :
    scoreTrails nearest ts pts (some 0) = scoreTrails nearest ts pts (some 100) ∧
    scoreTrails nearest ts pts none = scoreTrails nearest ts pts (some 100) ∧
    ∀ b : ℚ, b < 0 → (∀ p g d, nearest p g = some d → 0 ≤ d) →
      ∀ t ∈ scoreTrails nearest ts pts (some b),
        t.obsNearby = 0 ∧ t.scoreNorm = 0 := by
  refine ⟨?_, ?_, ?_⟩
  · have h : effBufferKm (some 0) = effBufferKm (some 100) := by
      show (if (0 : ℚ) = 0 then trailBufferMeters else 0) / 1000 =
        (if (100 : ℚ) = 0 then trailBufferMeters else 100) / 1000
      norm_num [trailBufferMeters]
    rw [scoreTrails_eq, scoreTrails_eq, h]
  · have h : effBufferKm none = effBufferKm (some 100) := by
      show trailBufferMeters / 1000 =
        (if (100 : ℚ) = 0 then trailBufferMeters else 100) / 1000
      norm_num [trailBufferMeters]
    rw [scoreTrails_eq, scoreTrails_eq, h]
  · intro b hb hd t ht
    rw [scoreTrails_neg_buffer nearest ts pts b hb hd] at ht
    obtain ⟨u, _, rfl⟩ := List.mem_map.mp ht
    exact ⟨rfl, rfl⟩

/-- Witness for claim C10 at a concrete input. -/
theorem buffer_truthiness_witness :
    (⟨0, 0, 0⟩ : Trail ℕ).obsNearby = 0 ∧
    (⟨0, 0, 0⟩ : Trail ℕ).scoreNorm = 0 := by
  have hlist : scoreTrails (fun (_ : ℕ) (_ : ℕ) => some (0 : ℚ))
      [⟨0, 5, 1⟩] [0] (some (-2)) = [⟨0, 0, 0⟩] := by
    simp only [scoreTrails, stepTrail, resetTrail, effBufferKm, maxObsOf,
      trailBufferMeters, List.map, List.foldl, List.foldr, roundTo]
    norm_num [Rat.floor_def']
  exact (buffer_truthiness (fun (_ : ℕ) (_ : ℕ) => some (0 : ℚ))
      [⟨0, 5, 1⟩] [0]).2.2 (-2) (by norm_num)
    (fun p g d h => by injection h with h2; rw [← h2])
    ⟨0, 0, 0⟩ (by rw [hlist]; exact List.mem_singleton_self _)

/-- Witness for claim C3 at a concrete input. -/
theorem scoreTrails_norm_bounds_witness :
    0 ≤ (⟨0, 1, 1⟩ : Trail ℕ).scoreNorm ∧
    (⟨0, 1, 1⟩ : Trail ℕ).scoreNorm ≤ 1 := by
  have hlist : scoreTrails (fun (_ : ℕ) (_ : ℕ) => some (0 : ℚ))
      [⟨0, 0, 0⟩] [0] none = [⟨0, 1, 1⟩] := by
    simp only [scoreTrails, stepTrail, resetTrail, effBufferKm, maxObsOf,
      trailBufferMeters, List.map, List.foldl, List.foldr, roundTo]
    norm_num [Rat.floor_def']
  exact (scoreTrails_norm_bounds (fun (_ : ℕ) (_ : ℕ) => some (0 : ℚ))
      [⟨0, 0, 0⟩] [0] none).1 ⟨0, 1, 1⟩
    (by rw [hlist]; exact List.mem_singleton_self _)

end NHWater
